import Mathlib

/-!
Verification of the scheduled social-media publishing engine
(`services/social_media_service.py`, `services/scheduler_service.py`,
`database/mongodb_manager.py`, `agents/crew_agents.py`,
`config/settings.py`).

Texts are modelled as `List Char`; Python string operations used by the
code (`strip`, `split`, `join`, slicing, `lower`, `re.sub`/`re.findall`
for the specific patterns appearing in the source) are embedded as
executable functions below.  Python semantics notes:

* A bare expression statement (a line consisting of just `" "`, `word`,
  `"..."`, or `suffix`) evaluates the expression and discards it — it is
  a no-op.  The source contains several such lines; the embedding keeps
  their (no-op) semantics faithfully.
* `s[:n]` with `n < 0` keeps all but the last `-n` characters.
* `set(xs)` membership is extensional string equality, so a `List` with
  `contains` is the same membership predicate.
-/

/-- Python `\s` for the ASCII range (the texts in all theorems below are
ASCII): space, tab, newline, carriage return, vertical tab, form feed. -/
def pyIsSpace (c : Char) : Bool :=
  c = ' ' || c = '\t' || c = '\n' || c = '\r' || c = '\x0b' || c = '\x0c'

/-- Python `\w` for the ASCII range: letters, digits, underscore. -/
def pyIsWord (c : Char) : Bool :=
  ('a' ≤ c && c ≤ 'z') || ('A' ≤ c && c ≤ 'Z') || ('0' ≤ c && c ≤ '9') || c = '_'

/-- Python `str.strip()`: remove leading and trailing whitespace. -/
def pyStrip (s : List Char) : List Char :=
  ((s.dropWhile pyIsSpace).reverse.dropWhile pyIsSpace).reverse

/-- Worker for `pySplit`: `acc` holds the current word, reversed. -/
def pySplitAux : List Char → List Char → List (List Char)
  | [], acc => if acc.isEmpty then [] else [acc.reverse]
  | c :: rest, acc =>
    if pyIsSpace c then
      if acc.isEmpty then pySplitAux rest [] else acc.reverse :: pySplitAux rest []
    else pySplitAux rest (c :: acc)

/-- Python `str.split()` (no argument): split on whitespace runs,
discarding empty pieces. -/
def pySplit (s : List Char) : List (List Char) :=
  pySplitAux s []

/-- Python `" ".join(words)`. -/
def pyJoin : List (List Char) → List Char
  | [] => []
  | [w] => w
  | w :: ws => w ++ ' ' :: pyJoin ws

/-- Python `s[:n]` for an `Int` index: a negative `n` drops the last
`-n` characters. -/
def pySliceTo (s : List Char) (n : Int) : List Char :=
  if 0 ≤ n then s.take n.toNat else s.take (s.length - (-n).toNat)

/-- Python `str.lower()` for the ASCII range. -/
def pyLower (s : List Char) : List Char :=
  s.map Char.toLower

/--
`SocialMediaService._split_tweet_content(content, max_length)`
(services/social_media_service.py, lines 147–178), embedded statement by
statement.  In the source, the branch for a non-empty `current_chunk`
reads

    candidate = current_chunk
    " "
    word

the last two lines being bare expression statements (no-ops), so
`candidate` is just `current_chunk` and `word` is discarded on that
path.  `wordsLoop` is the `for word in words` loop, carrying
`(chunks, current_chunk)`.
-/
def splitTweetLoop (maxLength : Nat) :
    List (List Char) → List (List Char) × List Char → List (List Char) × List Char
  | [], st => st
  | word :: rest, (chunks, currentChunk) =>
    let candidate := if currentChunk.isEmpty then word else currentChunk
    let candidate := pyStrip candidate
    if candidate.length ≤ maxLength then
      splitTweetLoop maxLength rest (chunks, candidate)
    else
      let chunks := if currentChunk.isEmpty then chunks else chunks ++ [currentChunk]
      if word.length > maxLength then
        splitTweetLoop maxLength rest
          (chunks ++ [word.take maxLength], word.drop maxLength)
      else
        splitTweetLoop maxLength rest (chunks, word)

/-- `SocialMediaService._split_tweet_content`: after the loop, the final
non-empty `current_chunk` is appended. -/
def splitTweetContent (content : List Char) (maxLength : Nat) : List (List Char) :=
  let words := pySplit content
  let (chunks, currentChunk) := splitTweetLoop maxLength words ([], [])
  if currentChunk.isEmpty then chunks else chunks ++ [currentChunk]

/-- One pass of `re.sub(r"\[([^\]])\]\(([^\)])\)", r"\1 \2", text)`
(`_strip_markdown`): a 6-character window `[c](d)` with `c ≠ ']'`,
`d ≠ ')'` becomes `c d`; on no match the scan advances one character. -/
def stripLinks : List Char → List Char
  | '[' :: c :: ']' :: '(' :: d :: ')' :: rest =>
    if c ≠ ']' ∧ d ≠ ')' then c :: ' ' :: d :: stripLinks rest
    else '[' :: stripLinks (c :: ']' :: '(' :: d :: ')' :: rest)
  | c :: rest => c :: stripLinks rest
  | [] => []

/-- `re.sub(r"\*\*([^*])\*\*", r"\1", text)`. -/
def stripBold : List Char → List Char
  | '*' :: '*' :: c :: '*' :: '*' :: rest =>
    if c ≠ '*' then c :: stripBold rest
    else '*' :: stripBold ('*' :: c :: '*' :: '*' :: rest)
  | c :: rest => c :: stripBold rest
  | [] => []

/-- `re.sub(r"\*([^*])\*", r"\1", text)`. -/
def stripItalic : List Char → List Char
  | '*' :: c :: '*' :: rest =>
    if c ≠ '*' then c :: stripItalic rest
    else '*' :: stripItalic (c :: '*' :: rest)
  | c :: rest => c :: stripItalic rest
  | [] => []

/-- `re.sub(r"_([^_])_", r"\1", text)`. -/
def stripUnderscore : List Char → List Char
  | '_' :: c :: '_' :: rest =>
    if c ≠ '_' then c :: stripUnderscore rest
    else '_' :: stripUnderscore (c :: '_' :: rest)
  | c :: rest => c :: stripUnderscore rest
  | [] => []

/-- `SocialMediaService._strip_markdown` (lines 604–612): the four
substitutions applied in source order. -/
def stripMarkdown (text : List Char) : List Char :=
  stripUnderscore (stripItalic (stripBold (stripLinks text)))

/-- `re.sub(r"\s", " ", text)`: each whitespace character becomes a
single space (the pattern has no `+`, so runs are not collapsed). -/
def subWhitespace (text : List Char) : List Char :=
  text.map (fun c => if pyIsSpace c then ' ' else c)

/-- `w.startswith('#')`. -/
def isHashtagWord (w : List Char) : Bool :=
  match w with
  | '#' :: _ => true
  | _ => false

/-- Decimal rendering of a `Nat`, for the f-string `f" ({index}/{total})"`. -/
def natChars (n : Nat) : List Char :=
  (Nat.repr n).toList

/-- The normalisation prefix of `_format_for_twitter` (lines 582–583):
`text = self._strip_markdown(text)` then
`text = re.sub(r"\s", " ", text).strip()`. -/
def twNormalized (text : List Char) : List Char :=
  pyStrip (subWhitespace (stripMarkdown text))

/-- The hashtag-limiting block of `_format_for_twitter` (lines
584–591): keep the first `max_tags = 3` hashtag words (as a set) and
drop every other hashtag word, rejoining with single spaces; below the
limit the text is untouched. -/
def twLimitHashtags (text : List Char) : List Char :=
  let maxTags : Nat := 3         -- Config.PLATFORM_CONFIGS['twitter']['max_hashtags']
  let words := pySplit text
  let hashtags := words.filter isHashtagWord
  if hashtags.length > maxTags then
    let kept := hashtags.take maxTags      -- set(hashtags[:max_tags])
    pyJoin (words.filter (fun w => !(isHashtagWord w && !(kept.contains w))))
  else text

/--
`SocialMediaService._format_for_twitter(text, is_thread, index, total)`
(lines 579–602).  `index`/`total` are `None` by default; the Python
truthiness test `is_thread and index and total` is false when either is
`None` or `0`.  In the thread branch the source reads

    text = text[:max_len - len(suffix)]
    suffix

and

    text = text
    suffix

— `suffix` on its own line is a bare expression statement, a no-op, so
the suffix is computed but never appended.
-/
def formatForTwitter (text : List Char) (isThread : Bool)
    (index : Option Nat) (total : Option Nat) : List Char :=
  let maxLen : Nat := 280        -- Config.PLATFORM_CONFIGS['twitter']['max_length']
  let text := twLimitHashtags (twNormalized text)
  if isThread && (index.getD 0 ≠ 0) && (total.getD 0 ≠ 0) then
    let suffix := ' ' :: '(' :: natChars (index.getD 0) ++ '/' :: natChars (total.getD 0) ++ [')']
    if (text.length : Int) > (maxLen : Int) - suffix.length then
      pySliceTo text ((maxLen : Int) - suffix.length)
    else text
  else
    text.take maxLen

/--
`SocialMediaService._format_for_platform(platform, text, content)`
(lines 558–577).  The only field of `content` this reads is
`content.get('content_type') == 'thread'`, passed here as
`contentType`.  In the LinkedIn branch the source reads

    text = text[:max_length-3]
    "..."

— the `"..."` is a bare expression statement, so no ellipsis is
appended and the truncated text has length `max_length - 3`.
-/
def formatForPlatform (platform : List Char) (text : List Char)
    (contentType : Option (List Char)) : List Char :=
  if platform = "twitter".toList then
    formatForTwitter text (contentType = some "thread".toList) none none
  else if platform = "linkedin".toList then
    let text := stripMarkdown text
    let maxLength := min 3000 1300   -- min(Config.PLATFORM_CONFIGS['linkedin']['max_length'], 1300)
    if text.length > maxLength then text.take (maxLength - 3) else text
  else if platform = "facebook".toList then
    text.take 2000                   -- Config.PLATFORM_CONFIGS['facebook']['max_length']
  else if platform = "instagram".toList then
    text.take 2200                   -- Config.PLATFORM_CONFIGS['instagram']['max_length']
  else text

/-- The content dict fields read by `post_content` and
`_format_for_platform`: `platform`, `content`, `content_type`. -/
structure ContentDict where
  platform : List Char
  content : List Char
  content_type : Option (List Char)
deriving DecidableEq, Repr

/-- The four posting handlers `post_content` can dispatch to
(`_post_to_twitter`, `_post_to_facebook`, `_post_to_instagram`,
`_post_to_linkedin`). -/
inductive DispatchTarget
  | twitter | facebook | instagram | linkedin
deriving DecidableEq, Repr

/--
The pure prefix of `SocialMediaService.post_content(content)` (lines
44–64): lower-case the platform, map the alias `'x'` to `'twitter'`,
format the text, then select the handler.  The network submission inside
the handler is outside the embedding; `none` is the
`ValueError("Unsupported platform")` path.
-/
def postContentPlan (content : ContentDict) : Option (DispatchTarget × List Char) :=
  let platformRaw := pyLower content.platform
  let platform :=
    if platformRaw = "x".toList ∨ platformRaw = "twitter".toList
    then "twitter".toList else platformRaw
  let contentText := formatForPlatform platform content.content content.content_type
  if platform = "twitter".toList then some (.twitter, contentText)
  else if platform = "facebook".toList then some (.facebook, contentText)
  else if platform = "instagram".toList then some (.instagram, contentText)
  else if platform = "linkedin".toList then some (.linkedin, contentText)
  else none

/-- `ScheduledPost.status` values written by the system. -/
inductive ScheduleStatus
  | pending | completed | failed | cancelled
deriving DecidableEq, Repr

/-- Terminal states of the schedule state machine. -/
def ScheduleStatus.isTerminal : ScheduleStatus → Bool
  | .pending => false
  | _ => true

/-- A document of the `schedules` collection (fields used by the
scheduler path). -/
structure Schedule where
  id : Nat
  content_id : Nat
  platform : List Char
  schedule_time : Int
  status : ScheduleStatus
  executed_at : Option Int
deriving DecidableEq, Repr

/-- `Content.status` values written by the publishing pipeline. -/
inductive ContentStatus
  | draft | posted | failed
deriving DecidableEq, Repr

/-- A document of the `content` collection (fields used by the
scheduler path): its id, pipeline status, the stored post result, and
the payload dict handed to `post_content`. -/
structure ContentRec where
  id : Nat
  status : ContentStatus
  post_result : Option (List Char)
  data : ContentDict
deriving DecidableEq, Repr

/-- The two MongoDB collections the scheduler touches. -/
structure Store where
  schedules : List Schedule
  contents : List ContentRec
deriving DecidableEq, Repr

/-- `MongoDBManager.get_pending_schedules()` (mongodb_manager.py lines
163–178): all schedules with `status = "pending"` and
`schedule_time <= now`. -/
def getPendingSchedules (st : Store) (now : Int) : List Schedule :=
  st.schedules.filter (fun s => s.status = .pending && s.schedule_time ≤ now)

/-- `MongoDBManager.update_schedule_status(id, status)` (lines 180–188):
unconditionally sets `status` and `executed_at` on the matching
document. -/
def updateScheduleStatus (st : Store) (id : Nat) (status : ScheduleStatus)
    (now : Int) : Store :=
  { st with schedules :=
      st.schedules.map (fun s =>
        if s.id = id then { s with status := status, executed_at := some now } else s) }

/-- `MongoDBManager.get_content(id)`: look the document up by id. -/
def getContent (st : Store) (id : Nat) : Option ContentRec :=
  st.contents.find? (fun c => c.id = id)

/-- `MongoDBManager.update_content_status(id, status, post_result)`:
sets the fields on the matching document. -/
def updateContentStatus (st : Store) (id : Nat) (status : ContentStatus)
    (result : Option (List Char)) : Store :=
  { st with contents :=
      st.contents.map (fun c =>
        if c.id = id then { c with status := status, post_result := result } else c) }

/-- Outcome of one `post_content` dispatch as seen by
`_execute_scheduled_post`: a success dict, a `success=False` dict, or an
exception escaping into the `except` clause. -/
inductive AdapterOutcome
  | success (result : List Char)
  | failure
  | raised
deriving DecidableEq, Repr

/--
`SchedulerService._execute_scheduled_post(schedule_item)`
(scheduler_service.py lines 83–127), with the adapter
(`social_media_service.post_content`) as an oracle on the content
payload.  Returns the updated store together with the list of adapter
invocations made, each tagged with the schedule id it was made for.
An exception from the adapter is caught by the surrounding `except`
and marks the schedule `failed` (as does the per-item handler in
`_check_scheduled_posts`, lines 76–78).
-/
def executeScheduledPost (st : Store) (item : Schedule)
    (adapter : ContentDict → AdapterOutcome) (now : Int) :
    Store × List (Nat × ContentDict) :=
  match getContent st item.content_id with
  | none => (updateScheduleStatus st item.id .failed now, [])
  | some content =>
    match adapter content.data with
    | .success result =>
      (updateScheduleStatus
        (updateContentStatus st item.content_id .posted (some result))
        item.id .completed now,
       [(item.id, content.data)])
    | .failure => (updateScheduleStatus st item.id .failed now, [(item.id, content.data)])
    | .raised => (updateScheduleStatus st item.id .failed now, [(item.id, content.data)])

/-- The `for schedule_item in pending_schedules` loop of
`_check_scheduled_posts`, threading the store and accumulating the
adapter-call log. -/
def schedulerPassLoop (adapter : ContentDict → AdapterOutcome) (now : Int) :
    List Schedule → Store × List (Nat × ContentDict) → Store × List (Nat × ContentDict)
  | [], acc => acc
  | item :: rest, (st, log) =>
    let (st', calls) := executeScheduledPost st item adapter now
    schedulerPassLoop adapter now rest (st', log ++ calls)

/-- `SchedulerService._check_scheduled_posts()` (lines 45–81): one
discovery pass — query the due pending schedules once, then execute each
sequentially. -/
def checkScheduledPosts (st : Store) (adapter : ContentDict → AdapterOutcome)
    (now : Int) : Store × List (Nat × ContentDict) :=
  schedulerPassLoop adapter now (getPendingSchedules st now) (st, [])

/-- `SchedulerService.cancel_scheduled_post(schedule_id)` (lines
166–179): unconditionally sets the status to `cancelled`. -/
def cancelScheduledPost (st : Store) (scheduleId : Nat) (now : Int) : Store :=
  updateScheduleStatus st scheduleId .cancelled now

/-- `re.findall(r'#\w', content)` (crew_agents.py line 306): the pattern
is `#\w` — a `'#'` followed by exactly ONE word character (there is no
`+`), so each non-overlapping match is a two-character fragment. -/
def findallHashW : List Char → List (List Char)
  | '#' :: c :: rest =>
    if pyIsWord c then ['#', c] :: findallHashW rest
    else findallHashW (c :: rest)
  | _ :: rest => findallHashW rest
  | [] => []

/-- Python `s.rsplit(' ', 1)[0]`: everything before the last space, or
the whole string when it has no space. -/
def pyRsplitSpaceHead (s : List Char) : List Char :=
  if s.any (fun c => c = ' ') then
    ((s.reverse.dropWhile (fun c => c ≠ ' ')).drop 1).reverse
  else s

/--
The over-length block of `ContentCreationCrew._post_process_content`
(crew_agents.py lines 303–314): when the content exceeds `max_length`,
join the last three `#\w` matches with spaces, compute
`main_content_limit = max_length - len(hashtags) - 5`, and either cut at
the last space within the limit and re-append the joined matches, or
hard-truncate to `max_length`.
-/
def postProcessOverLength (content : List Char) (maxLength : Nat) : List Char :=
  if content.length > maxLength then
    let hashtagMatch := findallHashW content
    let hashtags := pyJoin (hashtagMatch.drop (hashtagMatch.length - 3))  -- [-3:]
    let mainContentLimit : Int := (maxLength : Int) - hashtags.length - 5
    if mainContentLimit > 50 then
      let mainContent := pyRsplitSpaceHead (pySliceTo content mainContentLimit)
      pyStrip (mainContent ++ ' ' :: hashtags)
    else content.take maxLength
  else content

/-- `Config.PLATFORM_CONFIGS[p]['max_length']` (config/settings.py lines
46–75); `none` for a platform key absent from the dict. -/
def configMaxLength (p : List Char) : Option Nat :=
  if p = "twitter".toList then some 280
  else if p = "linkedin".toList then some 3000
  else if p = "facebook".toList then some 2000
  else if p = "instagram".toList then some 2200
  else none

/-- `Config.PLATFORM_CONFIGS[p]['max_hashtags']` (same dict). -/
def configMaxHashtags (p : List Char) : Option Nat :=
  if p = "twitter".toList then some 3
  else if p = "linkedin".toList then some 5
  else if p = "facebook".toList then some 3
  else if p = "instagram".toList then some 15
  else none

/-- Number of hashtag words (whitespace-delimited words starting with
`'#'`) of a text. -/
def countHashtags (s : List Char) : Nat :=
  ((pySplit s).filter isHashtagWord).length

set_option maxRecDepth 100000

theorem formatForTwitter_length_le (text : List Char) (isThread : Bool) :
    (formatForTwitter text isThread none none).length ≤ 280 := by
  unfold formatForTwitter
  simp [List.length_take]

/-- **C1.** For every input text and content type, the output of the
platform formatting step `_format_for_platform` is no longer than the
platform's configured `max_length` (280 / 3000 / 2000 / 2200 for
twitter / linkedin / facebook / instagram). -/
theorem formatForPlatform_length_le_configMax (p : List Char) (m : Nat)
    (h : configMaxLength p = some m) (text : List Char) (ct : Option (List Char)) :
    (formatForPlatform p text ct).length ≤ m := by
  unfold configMaxLength at h
  unfold formatForPlatform
  by_cases h1 : p = "twitter".toList
  · subst h1
    rw [if_pos rfl] at h ⊢
    obtain rfl : (280 : Nat) = m := Option.some.inj h
    exact formatForTwitter_length_le text _
  · rw [if_neg h1] at h ⊢
    by_cases h2 : p = "linkedin".toList
    · subst h2
      rw [if_pos rfl] at h ⊢
      obtain rfl : (3000 : Nat) = m := Option.some.inj h
      dsimp only
      split_ifs with hlen
      · have h5 : (3000 : Nat) ⊓ 1300 - 3 ≤ 1297 := by norm_num
        have h6 := List.length_take_le ((3000 : Nat) ⊓ 1300 - 3) (stripMarkdown text)
        omega
      · have h5 : (1300 : Nat) ≤ 3000 := by norm_num
        omega
    · rw [if_neg h2] at h ⊢
      by_cases h3 : p = "facebook".toList
      · subst h3
        rw [if_pos rfl] at h ⊢
        obtain rfl : (2000 : Nat) = m := Option.some.inj h
        have := List.length_take_le 2000 text
        omega
      · rw [if_neg h3] at h ⊢
        by_cases h4 : p = "instagram".toList
        · subst h4
          rw [if_pos rfl] at h ⊢
          obtain rfl : (2200 : Nat) = m := Option.some.inj h
          have := List.length_take_le 2200 text
          omega
        · rw [if_neg h4] at h
          exact absurd h (by simp)

/-- **C1 witness.** The bound instantiated at the twitter entry of the
config and a concrete text. -/
theorem formatForPlatform_length_le_configMax_witness :
    configMaxLength ("twitter".toList) = some 280 ∧
    (formatForPlatform ("twitter".toList) ("hello **world**".toList) none).length ≤ 280 :=
  ⟨by decide,
   formatForPlatform_length_le_configMax "twitter".toList 280 (by decide)
     ("hello **world**".toList) none⟩

/-- **C7 (code evaluated at the failing inputs).**  The chunker loses
every word after an accepted segment (`candidate` never includes `word`
— see `splitTweetLoop`): `"A B"` chunks to `["A"]`, dropping the token
`"B"`, so concatenating the segments does not reproduce the token
stream; and after a hard cut whose remainder still exceeds the limit,
the remainder is emitted whole as a 320-character segment, violating the
`max_length` bound as well. -/
theorem splitTweetContent_drops_tokens :
    splitTweetContent ("A B".toList) 280 = ["A".toList] ∧
    (splitTweetContent (List.replicate 600 'a' ++ ' ' :: ['b']) 280).map List.length
      = [280, 320, 1] := by
  constructor
  · decide
  · decide

/-- **C8 (code evaluated at the claimed and the failing input).**  On
the single oversized token `"x" * 500` the chunker does yield a first
segment of exactly 280 characters with the 220-character remainder
seeding the next; but an oversized word that arrives while a segment is
already open is dropped entirely instead of being hard-cut:
`"a " ++ "b" * 281` chunks to `["a"]`. -/
theorem splitTweetContent_oversized_word :
    splitTweetContent (List.replicate 500 'x') 280
      = [List.replicate 280 'x', List.replicate 220 'x'] ∧
    splitTweetContent ('a' :: ' ' :: List.replicate 281 'b') 280 = [['a']] := by
  constructor
  · decide
  · decide

/-- **C9 (code evaluated at the failing input).**  With thread context
known (`is_thread=True, index=1, total=2`) the formatter returns the
text unchanged: the numbering suffix `" (1/2)"` is computed but never
appended (the `suffix` lines in the source are bare expression
statements), so the output does not end with the suffix. -/
theorem formatForTwitter_no_thread_suffix :
    formatForTwitter ("hello".toList) true (some 1) (some 2) = "hello".toList := by
  decide

/-- `str.lower` fixes the literal `"twitter"`. -/
theorem pyLower_twitter : pyLower ("twitter".toList) = "twitter".toList := by
  decide

/-- **C10.** A content dict whose platform field lowercases to `"x"` is
routed exactly as the same dict with platform `"twitter"`: same
formatted text, same handler (`'x'` is an accepted alias, not an
unsupported platform). -/
theorem postContentPlan_x_alias (c : ContentDict)
    (h : pyLower c.platform = "x".toList) :
    postContentPlan c = postContentPlan ⟨"twitter".toList, c.content, c.content_type⟩ := by
  obtain ⟨p, txt, ct⟩ := c
  simp only at h
  unfold postContentPlan
  simp only [h, pyLower_twitter]
  norm_num

/-- **C10 witness.** The alias theorem at a concrete dict. -/
theorem postContentPlan_x_alias_witness :
    pyLower ("X".toList) = "x".toList ∧
    postContentPlan ⟨"X".toList, "hi".toList, none⟩
      = postContentPlan ⟨"twitter".toList, "hi".toList, none⟩ :=
  ⟨by decide, postContentPlan_x_alias ⟨"X".toList, "hi".toList, none⟩ (by decide)⟩

/-- **C6 (code evaluated at a failing input).**  For the over-length
input `"w " * 45 ++ "#launch #news"` (103 characters) with
`max_length = 100`, the block appends `"#l #n"` — the `re.findall(r'#\w',
...)` matches are the two-character fragments `"#l"` and `"#n"`, not the
hashtag tokens `"#launch"` and `"#news"` that the claimed pattern
`#` + one-or-more word characters would extract. -/
theorem postProcessOverLength_fragment_hashtags :
    postProcessOverLength
        ((List.replicate 45 ('w' :: [' '])).flatten ++ "#launch #news".toList) 100
      = (List.replicate 44 ('w' :: [' '])).flatten ++ "w #l #n".toList ∧
    findallHashW ((List.replicate 45 ('w' :: [' '])).flatten ++ "#launch #news".toList)
      = ["#l".toList, "#n".toList] := by
  constructor
  · decide
  · decide

/-- **C5 counterexample.**  The facebook formatting path never limits
hashtags: an input with four hashtag words (config maximum 3) is
returned with all four. -/
theorem formatForPlatform_facebook_keeps_excess_hashtags :
    countHashtags (formatForPlatform ("facebook".toList) ("#a #b #c #d".toList) none) = 4 ∧
    configMaxHashtags ("facebook".toList) = some 3 := by
  constructor
  · decide
  · decide

theorem updateScheduleStatus_contents (st : Store) (id : Nat)
    (status : ScheduleStatus) (now : Int) :
    (updateScheduleStatus st id status now).contents = st.contents := rfl

theorem updateContentStatus_schedules (st : Store) (id : Nat)
    (status : ContentStatus) (r : Option (List Char)) :
    (updateContentStatus st id status r).schedules = st.schedules := rfl

/-- Branch equation: missing content marks the schedule failed with no
adapter call. -/
theorem executeScheduledPost_none_eq {st : Store} {item : Schedule}
    {a : ContentDict → AdapterOutcome} {now : Int}
    (h : getContent st item.content_id = none) :
    executeScheduledPost st item a now
      = (updateScheduleStatus st item.id .failed now, []) := by
  unfold executeScheduledPost
  rw [h]

/-- Branch equation: adapter success updates the content then completes
the schedule. -/
theorem executeScheduledPost_success_eq {st : Store} {item : Schedule}
    {a : ContentDict → AdapterOutcome} {now : Int} {c : ContentRec} {r : List Char}
    (hc : getContent st item.content_id = some c) (ha : a c.data = .success r) :
    executeScheduledPost st item a now
      = (updateScheduleStatus
           (updateContentStatus st item.content_id .posted (some r))
           item.id .completed now,
         [(item.id, c.data)]) := by
  unfold executeScheduledPost
  rw [hc]
  simp [ha]

/-- Branch equation: a `success=False` result marks the schedule failed. -/
theorem executeScheduledPost_failure_eq {st : Store} {item : Schedule}
    {a : ContentDict → AdapterOutcome} {now : Int} {c : ContentRec}
    (hc : getContent st item.content_id = some c) (ha : a c.data = .failure) :
    executeScheduledPost st item a now
      = (updateScheduleStatus st item.id .failed now, [(item.id, c.data)]) := by
  unfold executeScheduledPost
  rw [hc]
  simp [ha]

/-- Branch equation: an adapter exception is caught and marks the
schedule failed. -/
theorem executeScheduledPost_raised_eq {st : Store} {item : Schedule}
    {a : ContentDict → AdapterOutcome} {now : Int} {c : ContentRec}
    (hc : getContent st item.content_id = some c) (ha : a c.data = .raised) :
    executeScheduledPost st item a now
      = (updateScheduleStatus st item.id .failed now, [(item.id, c.data)]) := by
  unfold executeScheduledPost
  rw [hc]
  simp [ha]

/-- An update targeting a different id leaves a schedule record a member
of the original list. -/
theorem mem_updateScheduleStatus_of_ne {st : Store} {id : Nat}
    {status : ScheduleStatus} {now : Int} {x : Schedule}
    (hx : x ∈ (updateScheduleStatus st id status now).schedules)
    (hne : x.id ≠ id) : x ∈ st.schedules := by
  simp only [updateScheduleStatus, List.mem_map] at hx
  obtain ⟨y, hy, heq⟩ := hx
  by_cases hid : y.id = id
  · rw [if_pos hid] at heq
    exfalso
    apply hne
    rw [← heq, hid]
  · rw [if_neg hid] at heq
    rw [← heq]
    exact hy

/-- Every record matching the targeted id carries the new status after
`update_schedule_status`. -/
theorem updateScheduleStatus_status_of_eq {st : Store} {id : Nat}
    {status : ScheduleStatus} {now : Int} {x : Schedule}
    (hx : x ∈ (updateScheduleStatus st id status now).schedules)
    (hid : x.id = id) : x.status = status := by
  simp only [updateScheduleStatus, List.mem_map] at hx
  obtain ⟨y, hy, heq⟩ := hx
  by_cases hid' : y.id = id
  · rw [if_pos hid'] at heq
    rw [← heq]
  · rw [if_neg hid'] at heq
    rw [← heq] at hid
    exact absurd hid hid'

/-- `update_content_status` never creates a content record: an id absent
before is absent after. -/
theorem getContent_updateContentStatus_none {st : Store} {cid : Nat}
    {id : Nat} {status : ContentStatus} {r : Option (List Char)}
    (h : getContent st cid = none) :
    getContent (updateContentStatus st id status r) cid = none := by
  simp only [getContent, List.find?_eq_none] at h ⊢
  simp only [updateContentStatus, List.mem_map]
  rintro x ⟨y, hy, rfl⟩
  have hne := h y hy
  by_cases hid : y.id = id
  · rw [if_pos hid]
    simpa using hne
  · rw [if_neg hid]
    exact hne

/-- Every adapter call made by one step is on behalf of the schedule id
being processed. -/
theorem executeScheduledPost_calls {st : Store} {item : Schedule}
    {a : ContentDict → AdapterOutcome} {now : Int} :
    ∀ e ∈ (executeScheduledPost st item a now).2, e.1 = item.id := by
  rcases hgc : getContent st item.content_id with _ | c
  · rw [executeScheduledPost_none_eq hgc]
    simp
  · rcases ha : a c.data with r | _ | _
    · rw [executeScheduledPost_success_eq hgc ha]
      simp
    · rw [executeScheduledPost_failure_eq hgc ha]
      simp
    · rw [executeScheduledPost_raised_eq hgc ha]
      simp

/-- A step processing a different schedule id leaves any record with id
`sid` a member of the pre-step schedule list. -/
theorem executeScheduledPost_mem_of_ne {st : Store} {item : Schedule}
    {a : ContentDict → AdapterOutcome} {now : Int} {sid : Nat} {x : Schedule}
    (hne : item.id ≠ sid)
    (hx : x ∈ (executeScheduledPost st item a now).1.schedules)
    (hid : x.id = sid) : x ∈ st.schedules := by
  have hxne : x.id ≠ item.id := by
    rw [hid]
    exact fun h => hne h.symm
  rcases hgc : getContent st item.content_id with _ | c
  · rw [executeScheduledPost_none_eq hgc] at hx
    exact mem_updateScheduleStatus_of_ne hx hxne
  · rcases ha : a c.data with r | _ | _
    · rw [executeScheduledPost_success_eq hgc ha] at hx
      have hmem := mem_updateScheduleStatus_of_ne hx hxne
      rw [updateContentStatus_schedules] at hmem
      exact hmem
    · rw [executeScheduledPost_failure_eq hgc ha] at hx
      exact mem_updateScheduleStatus_of_ne hx hxne
    · rw [executeScheduledPost_raised_eq hgc ha] at hx
      exact mem_updateScheduleStatus_of_ne hx hxne

/-- A step never creates a content record. -/
theorem getContent_executeScheduledPost_none {st : Store} {item : Schedule}
    {a : ContentDict → AdapterOutcome} {now : Int} {cid : Nat}
    (h : getContent st cid = none) :
    getContent (executeScheduledPost st item a now).1 cid = none := by
  rcases hgc : getContent st item.content_id with _ | c
  · rw [executeScheduledPost_none_eq hgc]
    exact h
  · rcases ha : a c.data with r | _ | _
    · rw [executeScheduledPost_success_eq hgc ha]
      show getContent (updateContentStatus st item.content_id .posted (some r)) cid = none
      exact getContent_updateContentStatus_none h
    · rw [executeScheduledPost_failure_eq hgc ha]
      exact h
    · rw [executeScheduledPost_raised_eq hgc ha]
      exact h

/-- A step on a different id preserves "every record with id `sid` is
failed". -/
theorem executeScheduledPost_failed_preserved {st : Store} {item : Schedule}
    {a : ContentDict → AdapterOutcome} {now : Int} {sid : Nat}
    (hne : item.id ≠ sid)
    (hall : ∀ x ∈ st.schedules, x.id = sid → x.status = .failed) :
    ∀ x ∈ (executeScheduledPost st item a now).1.schedules, x.id = sid →
      x.status = .failed := by
  intro x hx hid
  exact hall x (executeScheduledPost_mem_of_ne hne hx hid) hid

/-- The discovery loop over a list of items none of which has id `sid`
leaves any record with id `sid` a member of the initial schedule list. -/
theorem schedulerPassLoop_mem_of_forall_ne
    {a : ContentDict → AdapterOutcome} {now : Int} {sid : Nat} :
    ∀ (items : List Schedule) (st : Store) (log : List (Nat × ContentDict)),
      (∀ it ∈ items, it.id ≠ sid) →
      ∀ x ∈ (schedulerPassLoop a now items (st, log)).1.schedules,
        x.id = sid → x ∈ st.schedules := by
  intro items
  induction items with
  | nil =>
    intro st log _ x hx _
    exact hx
  | cons item rest ih =>
    intro st log hne x hx hid
    rw [schedulerPassLoop] at hx
    rcases hstep : executeScheduledPost st item a now with ⟨st', calls⟩
    rw [hstep] at hx
    have hx' := ih st' (log ++ calls) (fun it hit => hne it (List.mem_cons_of_mem _ hit))
      x hx hid
    have hx2 : x ∈ (executeScheduledPost st item a now).1.schedules := by
      rw [hstep]
      exact hx'
    exact executeScheduledPost_mem_of_ne (hne item (List.mem_cons_self _ _)) hx2 hid

/-- The discovery loop preserves "every record with id `sid` is failed"
as long as no processed item has id `sid`. -/
theorem schedulerPassLoop_failed_preserved
    {a : ContentDict → AdapterOutcome} {now : Int} {sid : Nat} :
    ∀ (items : List Schedule) (st : Store) (log : List (Nat × ContentDict)),
      (∀ it ∈ items, it.id ≠ sid) →
      (∀ x ∈ st.schedules, x.id = sid → x.status = .failed) →
      ∀ x ∈ (schedulerPassLoop a now items (st, log)).1.schedules,
        x.id = sid → x.status = .failed := by
  intro items
  induction items with
  | nil =>
    intro st log _ hall x hx hid
    exact hall x hx hid
  | cons item rest ih =>
    intro st log hne hall x hx hid
    rw [schedulerPassLoop] at hx
    rcases hstep : executeScheduledPost st item a now with ⟨st', calls⟩
    rw [hstep] at hx
    have hall' : ∀ x ∈ st'.schedules, x.id = sid → x.status = .failed := by
      intro y hy hyid
      exact executeScheduledPost_failed_preserved (hne item (List.mem_cons_self _ _))
        hall y (by rw [hstep]; exact hy) hyid
    exact ih st' (log ++ calls) (fun it hit => hne it (List.mem_cons_of_mem _ hit))
      hall' x hx hid

/-- The discovery loop never creates a content record. -/
theorem schedulerPassLoop_contentNone
    {a : ContentDict → AdapterOutcome} {now : Int} {cid : Nat} :
    ∀ (items : List Schedule) (st : Store) (log : List (Nat × ContentDict)),
      getContent st cid = none →
      getContent (schedulerPassLoop a now items (st, log)).1 cid = none := by
  intro items
  induction items with
  | nil =>
    intro st log h
    exact h
  | cons item rest ih =>
    intro st log h
    rw [schedulerPassLoop]
    rcases hstep : executeScheduledPost st item a now with ⟨st', calls⟩
    have h' : getContent st' cid = none := by
      have h2 : getContent (executeScheduledPost st item a now).1 cid = none :=
        getContent_executeScheduledPost_none h
      rw [hstep] at h2
      exact h2
    exact ih st' (log ++ calls) h'

/-- Every entry of the discovery loop's adapter-call log either was
already in the accumulator or names the id of a processed item. -/
theorem schedulerPassLoop_log
    {a : ContentDict → AdapterOutcome} {now : Int} :
    ∀ (items : List Schedule) (st : Store) (log : List (Nat × ContentDict)),
      ∀ e ∈ (schedulerPassLoop a now items (st, log)).2,
        e ∈ log ∨ e.1 ∈ items.map (fun it => it.id) := by
  intro items
  induction items with
  | nil =>
    intro st log e he
    exact Or.inl he
  | cons item rest ih =>
    intro st log e he
    rw [schedulerPassLoop] at he
    rcases hstep : executeScheduledPost st item a now with ⟨st', calls⟩
    rw [hstep] at he
    rcases ih st' (log ++ calls) e he with hmem | hrest
    · rcases List.mem_append.1 hmem with hl | hc
      · exact Or.inl hl
      · right
        have hcall : ∀ e2 ∈ (executeScheduledPost st item a now).2, e2.1 = item.id :=
          executeScheduledPost_calls
        have := hcall e (by rw [hstep]; exact hc)
        simp [this]
    · right
      simp [hrest]

/-- The discovery loop processes a concatenation by processing the two
halves in order. -/
theorem schedulerPassLoop_append {a : ContentDict → AdapterOutcome} {now : Int} :
    ∀ (l1 l2 : List Schedule) (acc : Store × List (Nat × ContentDict)),
      schedulerPassLoop a now (l1 ++ l2) acc
        = schedulerPassLoop a now l2 (schedulerPassLoop a now l1 acc) := by
  intro l1
  induction l1 with
  | nil =>
    intro l2 acc
    rfl
  | cons item rest ih =>
    intro l2 acc
    rcases acc with ⟨st, log⟩
    rw [List.cons_append, schedulerPassLoop, schedulerPassLoop]
    rcases executeScheduledPost st item a now with ⟨st', calls⟩
    exact ih l2 (st', log ++ calls)

/-- Members of the due query are pending members of the store due at
`now`. -/
theorem mem_getPendingSchedules {st : Store} {now : Int} {s : Schedule}
    (h : s ∈ getPendingSchedules st now) :
    s ∈ st.schedules ∧ s.status = .pending ∧ s.schedule_time ≤ now := by
  have h1 := List.mem_filter.1 h
  refine ⟨h1.1, ?_, ?_⟩
  · have := h1.2
    simp only [Bool.and_eq_true, decide_eq_true_eq] at this
    exact this.1
  · have := h1.2
    simp only [Bool.and_eq_true, decide_eq_true_eq] at this
    exact this.2

/-- **C2 (amended).**  A discovery pass never changes a record that is
in a terminal state: with unique schedule ids, any post-pass record
carrying a terminal record's id is that record itself, unchanged
(the due query selects only `pending` records, so no update ever
targets a terminal one). -/
theorem checkScheduledPosts_preserves_terminal
    (st : Store) (a : ContentDict → AdapterOutcome) (now : Int) (s : Schedule)
    (hnd : (st.schedules.map (fun x => x.id)).Nodup)
    (hs : s ∈ st.schedules) (hterm : s.status.isTerminal = true) :
    ∀ x ∈ (checkScheduledPosts st a now).1.schedules, x.id = s.id → x = s := by
  intro x hx hid
  have hne : ∀ it ∈ getPendingSchedules st now, it.id ≠ s.id := by
    intro it hit he
    obtain ⟨hit', hpend, _⟩ := mem_getPendingSchedules hit
    have heq : it = s := List.inj_on_of_nodup_map hnd hit' hs he
    rw [heq] at hpend
    rw [hpend] at hterm
    simp [ScheduleStatus.isTerminal] at hterm
  unfold checkScheduledPosts at hx
  have hx' := schedulerPassLoop_mem_of_forall_ne (getPendingSchedules st now) st []
    hne x hx hid
  exact List.inj_on_of_nodup_map hnd hx' hs hid

/-- **C2 counterexample.**  `cancel_scheduled_post` does leave a
terminal state: applied to a store whose only schedule is `completed`,
it overwrites the status with `cancelled` (`update_schedule_status` has
no status guard). -/
theorem cancelScheduledPost_overwrites_completed :
    (Store.mk [⟨1, 1, "twitter".toList, 0, .completed, none⟩] []).schedules.map
        (fun x => x.status) = [.completed] ∧
    (cancelScheduledPost (Store.mk [⟨1, 1, "twitter".toList, 0, .completed, none⟩] [])
        1 5).schedules.map (fun x => x.status) = [.cancelled] := by
  constructor
  · decide
  · decide

/-- **C2 witness.**  The amended theorem at a one-element store whose
schedule is already `completed`. -/
theorem checkScheduledPosts_preserves_terminal_witness :
    ((Store.mk [⟨1, 1, "twitter".toList, 0, .completed, none⟩] []).schedules.map
        (fun x => x.id)).Nodup ∧
    (⟨1, 1, "twitter".toList, 0, .completed, none⟩ : Schedule) ∈
        (Store.mk [⟨1, 1, "twitter".toList, 0, .completed, none⟩] []).schedules ∧
    ScheduleStatus.isTerminal .completed = true ∧
    (∀ x ∈ (checkScheduledPosts (Store.mk [⟨1, 1, "twitter".toList, 0, .completed, none⟩] [])
        (fun _ => .failure) 0).1.schedules,
      x.id = (⟨1, 1, "twitter".toList, 0, .completed, none⟩ : Schedule).id →
        x = ⟨1, 1, "twitter".toList, 0, .completed, none⟩) :=
  ⟨by decide, by decide, by decide,
   checkScheduledPosts_preserves_terminal _ (fun _ => .failure) 0 _
     (by decide) (by decide) (by decide)⟩

/-- **C3.**  A due pending schedule whose content is absent from the
store is marked `failed` by one discovery pass, and no adapter call is
made on its behalf (the missing-content branch of
`_execute_scheduled_post` returns before `post_content`). -/
theorem checkScheduledPosts_missing_content
    (st : Store) (a : ContentDict → AdapterOutcome) (now : Int) (s : Schedule)
    (hnd : (st.schedules.map (fun x => x.id)).Nodup)
    (hs : s ∈ st.schedules) (hpend : s.status = .pending)
    (hdue : s.schedule_time ≤ now)
    (hmiss : getContent st s.content_id = none) :
    (∀ x ∈ (checkScheduledPosts st a now).1.schedules, x.id = s.id →
        x.status = .failed) ∧
    (∀ e ∈ (checkScheduledPosts st a now).2, e.1 ≠ s.id) := by
  have hsp : s ∈ getPendingSchedules st now :=
    List.mem_filter.2 ⟨hs, by simp [hpend, hdue]⟩
  obtain ⟨l1, l2, hdecomp⟩ := List.append_of_mem hsp
  have hndp : ((getPendingSchedules st now).map (fun x => x.id)).Nodup :=
    List.Nodup.sublist (List.Sublist.map _ (List.filter_sublist _)) hnd
  rw [hdecomp, List.map_append, List.map_cons] at hndp
  have hnd2 := List.nodup_append.1 hndp
  have hne1 : ∀ it ∈ l1, it.id ≠ s.id := by
    intro it hit he
    exact hnd2.2.2 (List.mem_map_of_mem _ hit) (by rw [he]; exact List.mem_cons_self _ _)
  have hne2 : ∀ it ∈ l2, it.id ≠ s.id := by
    intro it hit he
    exact (List.nodup_cons.1 hnd2.2.1).1 (by rw [← he]; exact List.mem_map_of_mem _ hit)
  unfold checkScheduledPosts
  rw [hdecomp, schedulerPassLoop_append]
  rcases h1 : schedulerPassLoop a now l1 (st, []) with ⟨st1, log1⟩
  have hmiss1 : getContent st1 s.content_id = none := by
    have h2 : getContent (schedulerPassLoop a now l1 (st, [])).1 s.content_id = none :=
      schedulerPassLoop_contentNone l1 st [] hmiss
    rw [h1] at h2
    exact h2
  rw [schedulerPassLoop, executeScheduledPost_none_eq hmiss1]
  have hbase : ∀ x ∈ (updateScheduleStatus st1 s.id .failed now).schedules,
      x.id = s.id → x.status = .failed :=
    fun x hx hid => updateScheduleStatus_status_of_eq hx hid
  constructor
  · exact schedulerPassLoop_failed_preserved l2 _ _ hne2 hbase
  · intro e he
    have hlog1 : ∀ e ∈ log1, e.1 ≠ s.id := by
      intro e1 he1
      have h4 : ∀ e2 ∈ (schedulerPassLoop a now l1 (st, [])).2,
          e2 ∈ ([] : List (Nat × ContentDict)) ∨
            e2.1 ∈ l1.map (fun it => it.id) :=
        schedulerPassLoop_log l1 st []
      rcases h4 e1 (by rw [h1]; exact he1) with hmem | hid1
      · exact absurd hmem (List.not_mem_nil _)
      · rcases List.mem_map.1 hid1 with ⟨it, hit, hit2⟩
        rw [← hit2]
        exact hne1 it hit
    rcases schedulerPassLoop_log l2 _ _ e he with hmem | hid2
    · exact hlog1 e (by simpa using hmem)
    · rcases List.mem_map.1 hid2 with ⟨it, hit, hit2⟩
      rw [← hit2]
      exact hne2 it hit

/-- **C3 witness.**  The theorem at a store holding one due pending
schedule and an empty content collection. -/
theorem checkScheduledPosts_missing_content_witness :
    ((Store.mk [⟨1, 7, "twitter".toList, 0, .pending, none⟩] []).schedules.map
        (fun x => x.id)).Nodup ∧
    getContent (Store.mk [⟨1, 7, "twitter".toList, 0, .pending, none⟩] []) 7 = none ∧
    ((∀ x ∈ (checkScheduledPosts (Store.mk [⟨1, 7, "twitter".toList, 0, .pending, none⟩] [])
        (fun _ => .failure) 3).1.schedules, x.id = 1 → x.status = .failed) ∧
     (∀ e ∈ (checkScheduledPosts (Store.mk [⟨1, 7, "twitter".toList, 0, .pending, none⟩] [])
        (fun _ => .failure) 3).2, e.1 ≠ 1)) :=
  ⟨by decide, by decide,
   checkScheduledPosts_missing_content _ (fun _ => .failure) 3
     ⟨1, 7, "twitter".toList, 0, .pending, none⟩
     (by decide) (by decide) (by decide) (by decide) (by decide)⟩

/-- **C4.**  When the adapter dispatch for a schedule fails — either a
`success=False` result or an exception — the step marks the schedule
`failed` and writes nothing to the content collection: the post-step
contents (hence the referenced Content's `status` and `post_result`) are
exactly the pre-step contents. -/
theorem executeScheduledPost_failure_frame
    (st : Store) (item : Schedule) (a : ContentDict → AdapterOutcome) (now : Int)
    (c : ContentRec)
    (hc : getContent st item.content_id = some c)
    (hfail : a c.data = .failure ∨ a c.data = .raised) :
    (executeScheduledPost st item a now).1.contents = st.contents ∧
    ∀ x ∈ (executeScheduledPost st item a now).1.schedules, x.id = item.id →
      x.status = .failed := by
  rcases hfail with ha | ha
  · rw [executeScheduledPost_failure_eq hc ha]
    exact ⟨rfl, fun x hx hid => updateScheduleStatus_status_of_eq hx hid⟩
  · rw [executeScheduledPost_raised_eq hc ha]
    exact ⟨rfl, fun x hx hid => updateScheduleStatus_status_of_eq hx hid⟩

/-- **C4 witness.**  The frame theorem at a concrete store, schedule,
content record and failing adapter. -/
theorem executeScheduledPost_failure_frame_witness :
    getContent
        (Store.mk [⟨1, 7, "twitter".toList, 0, .pending, none⟩]
          [⟨7, .draft, none, ⟨"twitter".toList, "hi".toList, none⟩⟩]) 7
      = some ⟨7, .draft, none, ⟨"twitter".toList, "hi".toList, none⟩⟩ ∧
    ((executeScheduledPost
        (Store.mk [⟨1, 7, "twitter".toList, 0, .pending, none⟩]
          [⟨7, .draft, none, ⟨"twitter".toList, "hi".toList, none⟩⟩])
        ⟨1, 7, "twitter".toList, 0, .pending, none⟩ (fun _ => .failure) 3).1.contents
      = (Store.mk [⟨1, 7, "twitter".toList, 0, .pending, none⟩]
          [⟨7, .draft, none, ⟨"twitter".toList, "hi".toList, none⟩⟩]).contents ∧
     ∀ x ∈ (executeScheduledPost
        (Store.mk [⟨1, 7, "twitter".toList, 0, .pending, none⟩]
          [⟨7, .draft, none, ⟨"twitter".toList, "hi".toList, none⟩⟩])
        ⟨1, 7, "twitter".toList, 0, .pending, none⟩ (fun _ => .failure) 3).1.schedules,
       x.id = 1 → x.status = .failed) :=
  ⟨by decide,
   executeScheduledPost_failure_frame _ ⟨1, 7, "twitter".toList, 0, .pending, none⟩
     (fun _ => .failure) 3 ⟨7, .draft, none, ⟨"twitter".toList, "hi".toList, none⟩⟩
     (by decide) (Or.inl (by decide))⟩

/-- Words produced by `pySplitAux` are non-empty and whitespace-free
(provided the accumulator is whitespace-free). -/
theorem pySplitAux_shape :
    ∀ (s acc : List Char), (∀ c ∈ acc, pyIsSpace c = false) →
      ∀ w ∈ pySplitAux s acc, w ≠ [] ∧ ∀ c ∈ w, pyIsSpace c = false := by
  intro s
  induction s with
  | nil =>
    intro acc hacc w hw
    rw [pySplitAux] at hw
    by_cases he : acc.isEmpty = true
    · rw [if_pos he] at hw
      exact absurd hw (List.not_mem_nil _)
    · rw [if_neg he] at hw
      rw [List.mem_singleton] at hw
      subst hw
      refine ⟨?_, ?_⟩
      · intro hnil
        rw [List.reverse_eq_nil_iff] at hnil
        rw [hnil] at he
        exact he rfl
      · intro c hc
        exact hacc c (List.mem_reverse.1 hc)
  | cons c rest ih =>
    intro acc hacc w hw
    rw [pySplitAux] at hw
    by_cases hsp : pyIsSpace c = true
    · rw [if_pos hsp] at hw
      by_cases he : acc.isEmpty = true
      · rw [if_pos he] at hw
        exact ih [] (by simp) w hw
      · rw [if_neg he] at hw
        rcases List.mem_cons.1 hw with rfl | hw'
        · refine ⟨?_, ?_⟩
          · intro hnil
            rw [List.reverse_eq_nil_iff] at hnil
            rw [hnil] at he
            exact he rfl
          · intro d hd
            exact hacc d (List.mem_reverse.1 hd)
        · exact ih [] (by simp) w hw'
    · rw [if_neg hsp] at hw
      refine ih (c :: acc) ?_ w hw
      intro d hd
      rcases List.mem_cons.1 hd with rfl | hd'
      · exact Bool.not_eq_true _ ▸ eq_false_of_ne_true hsp
      · exact hacc d hd'

/-- Every word of `pySplit s` is non-empty and whitespace-free. -/
theorem pySplit_shape {s : List Char} :
    ∀ w ∈ pySplit s, w ≠ [] ∧ ∀ c ∈ w, pyIsSpace c = false := by
  intro w hw
  exact pySplitAux_shape s [] (by simp) w hw

/-- `pySplitAux` consumes a whitespace-free word into the accumulator. -/
theorem pySplitAux_word_append :
    ∀ (w : List Char), (∀ c ∈ w, pyIsSpace c = false) →
      ∀ (s acc : List Char),
        pySplitAux (w ++ s) acc = pySplitAux s (w.reverse ++ acc) := by
  intro w
  induction w with
  | nil =>
    intro _ s acc
    simp
  | cons c w' ih =>
    intro hw s acc
    have hc : pyIsSpace c = false := hw c (List.mem_cons_self _ _)
    rw [List.cons_append, pySplitAux, if_neg (by simp [hc])]
    rw [ih (fun d hd => hw d (List.mem_cons_of_mem _ hd)) s (c :: acc)]
    simp

/-- Splitting a single-space join of non-empty whitespace-free words
recovers the words. -/
theorem pySplit_pyJoin :
    ∀ (ws : List (List Char)),
      (∀ w ∈ ws, w ≠ [] ∧ ∀ c ∈ w, pyIsSpace c = false) →
      pySplit (pyJoin ws) = ws := by
  intro ws
  induction ws with
  | nil =>
    intro _
    rfl
  | cons w ws' ih =>
    intro h
    obtain ⟨hwne, hwns⟩ := h w (List.mem_cons_self _ _)
    cases ws' with
    | nil =>
      show pySplit (pyJoin [w]) = [w]
      have hjoin : pyJoin [w] = w := rfl
      rw [hjoin]
      unfold pySplit
      rw [← List.append_nil w, pySplitAux_word_append w hwns [] []]
      rw [pySplitAux]
      rw [if_neg (by simp [hwne])]
      simp
    | cons w2 ws'' =>
      have hjoin : pyJoin (w :: w2 :: ws'') = w ++ ' ' :: pyJoin (w2 :: ws'') := rfl
      unfold pySplit
      rw [hjoin, pySplitAux_word_append w hwns (' ' :: pyJoin (w2 :: ws'')) []]
      rw [pySplitAux]
      rw [if_pos (by decide)]
      rw [if_neg (by simp [hwne])]
      rw [List.append_nil, List.reverse_reverse]
      have hrest := ih (fun v hv => h v (List.mem_cons_of_mem _ hv))
      unfold pySplit at hrest
      rw [hrest]

/-- On a duplicate-free list, filtering by membership in its `n`-prefix
returns exactly that prefix. -/
theorem filter_take_elem_of_nodup {l : List (List Char)} {n : Nat} (h : l.Nodup) :
    l.filter (fun a => (l.take n).elem a) = l.take n := by
  conv_lhs =>
    rw [show l.filter (fun a => (l.take n).elem a)
        = (l.take n ++ l.drop n).filter (fun a => (l.take n).elem a) from by
      rw [List.take_append_drop]]
  rw [List.filter_append]
  have h1 : (l.take n).filter (fun a => (l.take n).elem a) = l.take n :=
    List.filter_eq_self.2 (fun a ha => by simp [List.elem_eq_mem, ha])
  have h2 : (l.drop n).filter (fun a => (l.take n).elem a) = [] := by
    rw [List.filter_eq_nil_iff]
    intro a ha hel
    have hmem : a ∈ l.take n := by simpa [List.elem_eq_mem] using hel
    have hd : List.Disjoint (l.take n) (l.drop n) :=
      List.disjoint_of_nodup_append (by rw [List.take_append_drop]; exact h)
    exact hd hmem ha
  rw [h1, h2, List.append_nil]

/-- **C5 (amended, twitter path).**  When the hashtag words of the
normalised text are pairwise distinct and number more than 3, and the
hashtag-filtered text fits in 280 characters, the twitter formatter's
output contains exactly the first 3 hashtag words of the input, in
original order. -/
theorem formatForTwitter_hashtag_cap (text : List Char)
    (hnd : ((pySplit (twNormalized text)).filter isHashtagWord).Nodup)
    (hgt : ((pySplit (twNormalized text)).filter isHashtagWord).length > 3)
    (hfit : (twLimitHashtags (twNormalized text)).length ≤ 280) :
    (pySplit (formatForTwitter text false none none)).filter isHashtagWord
      = ((pySplit (twNormalized text)).filter isHashtagWord).take 3 := by
  have hform : formatForTwitter text false none none
      = (twLimitHashtags (twNormalized text)).take 280 := by
    unfold formatForTwitter
    simp
  rw [hform, List.take_of_length_le hfit]
  have hlim : twLimitHashtags (twNormalized text)
      = pyJoin ((pySplit (twNormalized text)).filter
          (fun w => !(isHashtagWord w &&
            !((((pySplit (twNormalized text)).filter isHashtagWord).take 3).contains w)))) := by
    unfold twLimitHashtags
    dsimp only
    rw [if_pos hgt]
  rw [hlim]
  rw [pySplit_pyJoin _ (fun w hw => pySplit_shape w (List.mem_filter.1 hw).1)]
  rw [List.filter_filter]
  have hpoint : (fun a => isHashtagWord a &&
        !(isHashtagWord a &&
          !((((pySplit (twNormalized text)).filter isHashtagWord).take 3).contains a)))
      = fun a => (((pySplit (twNormalized text)).filter isHashtagWord).take 3).elem a
          && isHashtagWord a := by
    funext a
    cases h1 : isHashtagWord a
    · simp [h1]
    · by_cases h2 : a ∈ ((pySplit (twNormalized text)).filter isHashtagWord).take 3
      · simp [h1, h2, List.contains, List.elem_eq_mem]
      · simp [h1, h2, List.contains, List.elem_eq_mem]
  rw [hpoint]
  rw [← List.filter_filter]
  exact filter_take_elem_of_nodup hnd

/-- **C5 witness.**  The cap theorem at the text `"a #a #b #c #d"`. -/
theorem formatForTwitter_hashtag_cap_witness :
    ((pySplit (twNormalized ("a #a #b #c #d".toList))).filter isHashtagWord).Nodup ∧
    ((pySplit (twNormalized ("a #a #b #c #d".toList))).filter isHashtagWord).length > 3 ∧
    (twLimitHashtags (twNormalized ("a #a #b #c #d".toList))).length ≤ 280 ∧
    (pySplit (formatForTwitter ("a #a #b #c #d".toList) false none none)).filter isHashtagWord
      = ((pySplit (twNormalized ("a #a #b #c #d".toList))).filter isHashtagWord).take 3 :=
  ⟨by decide, by decide, by decide,
   formatForTwitter_hashtag_cap ("a #a #b #c #d".toList) (by decide) (by decide) (by decide)⟩
